import Mathlib

/-!
Verification development for the objects.do per-tenant entity/event kernel.

The definitions below are a shallow embedding of the TypeScript sources:
  - src/do/objects-do.ts   (Durable Object: entity CRUD, verb execution,
                            event log, time travel, CDC stream, subscriptions,
                            integration dispatch)
  - src/lib/linguistic.ts  (verb conjugation)
  - src/lib/integration-dispatch.ts (built-in hooks, matching, dispatch)

JavaScript objects are modelled as association lists of (key, value) pairs in
insertion order; JSON values as a small inductive type.  SQL tables are lists
of rows; `MAX`, `COUNT`, `ORDER BY`, `LIMIT`/`OFFSET` are folds, lengths,
sorts and drop/take on those lists.  Timestamps and ids are strings compared
lexicographically, exactly as SQLite compares TEXT columns.
-/

/-! ## JSON values and JavaScript object semantics -/

/-- Claim-independent JSON value model (string, integer number, boolean, null). -/
inductive Value where
  | vStr (s : String)
  | vInt (n : Int)
  | vBool (b : Bool)
  | vNull
deriving DecidableEq, Repr

/-- A JavaScript object as serialised through JSON: keys in insertion order. -/
abbrev Obj := List (String × Value)

/-- Property read `o[k]`: first binding wins (keys are unique in practice). -/
def objGet (o : Obj) (k : String) : Option Value :=
  (o.find? (fun p => p.1 == k)).map (fun p => p.2)

/-- Property write `o[k] = v`: replace in place, else append (JS key order). -/
def objSet : Obj → String → Value → Obj
  | [], k, v => [(k, v)]
  | (k1, v1) :: rest, k, v =>
      if k1 == k then (k1, v) :: rest else (k1, v1) :: objSet rest k v

/-- Remove a key (models a key whose value is `undefined` after JSON
round-tripping, since `JSON.stringify` drops undefined properties). -/
def objRemove (o : Obj) (k : String) : Obj :=
  o.filter (fun p => p.1 != k)

/-- Spread/`Object.assign` into a copy of `a`, with `b` overriding. -/
def objMerge (a b : Obj) : Obj :=
  b.foldl (fun acc kv => objSet acc kv.1 kv.2) a

/-! ## Character and string helpers used by the TypeScript string code -/

def isVowel (c : Char) : Bool :=
  c == 'a' || c == 'e' || c == 'i' || c == 'o' || c == 'u'

/-- Last character test: `s.endsWith(c)` for a one-character suffix. -/
def endsWithChar (s : String) (c : Char) : Bool :=
  match s.data.reverse with
  | [] => false
  | d :: _ => d == c

/-- Two-character suffix test: `s.endsWith(c1c2)`. -/
def endsWith2 (s : String) (c1 c2 : Char) : Bool :=
  match s.data.reverse with
  | d2 :: d1 :: _ => d1 == c1 && d2 == c2
  | _ => false

/-- Regex test `/[aeiou]y$/`. -/
def vowelYEnd (s : String) : Bool :=
  match s.data.reverse with
  | d2 :: d1 :: _ => d2 == 'y' && isVowel d1
  | _ => false

/-- Consonants that the CVC regexes double: the class `[bcdfghlmnprstvwz]`. -/
def doublingConsonant (c : Char) : Bool :=
  c == 'b' || c == 'c' || c == 'd' || c == 'f' || c == 'g' || c == 'h' ||
  c == 'l' || c == 'm' || c == 'n' || c == 'p' || c == 'r' || c == 's' ||
  c == 't' || c == 'v' || c == 'w' || c == 'z'

/-- Regex test `/[^aeiou][aeiou][bcdfghlmnprstvwz]$/`. -/
def cvcEnd (s : String) : Bool :=
  match s.data.reverse with
  | c3 :: c2 :: c1 :: _ => !isVowel c1 && isVowel c2 && doublingConsonant c3
  | _ => false

/-- Models `s.slice(0, -1)`. -/
def dropLast1 (s : String) : String := String.mk s.data.dropLast

/-- Models `s.slice(0, -2)`. -/
def dropLast2 (s : String) : String := String.mk s.data.dropLast.dropLast

/-- The final character of `s` as a string (`s[s.length - 1]`, empty if none). -/
def lastCharStr (s : String) : String :=
  match s.data.reverse with
  | [] => ""
  | d :: _ => String.mk [d]

/-- Models `s.toLowerCase()` (ASCII-adequate for verb names). -/
def toLower (s : String) : String := String.mk (s.data.map Char.toLower)

/-! ## Conjugators

Two distinct conjugators exist in the source.  `deriveVerb` is the full
algorithm in src/lib/linguistic.ts (irregular table, vowel-y handling,
consonant doubling); `conjugateVerb` is the simplified local helper in
src/do/objects-do.ts that `logEvent` uses for the triple stored on every
emitted event. -/

/-- The conjugation triple carried by events (src/do/objects-do.ts). -/
structure VerbConj where
  action : String
  activity : String
  event : String
deriving DecidableEq, Repr

/-- Embeds `conjugateVerb` from src/do/objects-do.ts: known CRUD forms, then
the simplified rules (ends in e; ends in y; otherwise plain ed/ing). -/
def conjugateVerb (verb : String) : VerbConj :=
  if verb == "create" then ⟨"create", "creating", "created"⟩
  else if verb == "update" then ⟨"update", "updating", "updated"⟩
  else if verb == "delete" then ⟨"delete", "deleting", "deleted"⟩
  else if endsWithChar verb 'e' then
    ⟨verb, dropLast1 verb ++ "ing", verb ++ "d"⟩
  else if endsWithChar verb 'y' then
    ⟨verb, verb ++ "ing", dropLast1 verb ++ "ied"⟩
  else
    ⟨verb, verb ++ "ing", verb ++ "ed"⟩

/-- Result record of `deriveVerb` in src/lib/linguistic.ts. -/
structure DerivedVerb where
  action : String
  act : String
  activity : String
  event : String
  reverseBy : String
  reverseAt : String
deriving DecidableEq, Repr

/-- Irregular-verb table of src/lib/linguistic.ts: (base, act, activity, event). -/
def irregularVerbs : List (String × String × String × String) :=
  [("write", "writes", "writing", "written"),
   ("read", "reads", "reading", "read"),
   ("run", "runs", "running", "run"),
   ("begin", "begins", "beginning", "begun"),
   ("do", "does", "doing", "done"),
   ("go", "goes", "going", "gone"),
   ("have", "has", "having", "had"),
   ("be", "is", "being", "been"),
   ("set", "sets", "setting", "set"),
   ("get", "gets", "getting", "got"),
   ("put", "puts", "putting", "put"),
   ("cut", "cuts", "cutting", "cut"),
   ("hit", "hits", "hitting", "hit")]

/-- Embeds `deriveVerb` from src/lib/linguistic.ts: irregular table first,
then third-person, gerund and past-participle rules with vowel-y and
consonant-doubling (CVC, length at most 6) handling. -/
def deriveVerb (name : String) : DerivedVerb :=
  let base := toLower name
  match irregularVerbs.find? (fun p => p.1 == base) with
  | some irr =>
      { action := base, act := irr.2.1, activity := irr.2.2.1, event := irr.2.2.2,
        reverseBy := irr.2.2.2 ++ "By", reverseAt := irr.2.2.2 ++ "At" }
  | none =>
      let act :=
        if endsWithChar base 's' || endsWithChar base 'x' || endsWithChar base 'z' ||
           endsWith2 base 'c' 'h' || endsWith2 base 's' 'h' then base ++ "es"
        else if endsWithChar base 'y' && !vowelYEnd base then dropLast1 base ++ "ies"
        else base ++ "s"
      let activity :=
        if endsWithChar base 'e' && !endsWith2 base 'e' 'e' then dropLast1 base ++ "ing"
        else if endsWith2 base 'i' 'e' then dropLast2 base ++ "ying"
        else if cvcEnd base && base.length ≤ 6 then base ++ lastCharStr base ++ "ing"
        else base ++ "ing"
      let event :=
        if endsWithChar base 'e' then base ++ "d"
        else if endsWithChar base 'y' && !vowelYEnd base then dropLast1 base ++ "ied"
        else if cvcEnd base && base.length ≤ 6 then base ++ lastCharStr base ++ "ed"
        else base ++ "ed"
      { action := base, act := act, activity := activity, event := event,
        reverseBy := event ++ "By", reverseAt := event ++ "At" }


/-! ## Rows and the per-tenant store

One SQLite database per tenant: `entities` and `events` tables as lists of
rows in insertion order.  Noun schemas are passed to handlers as the result
of the cache lookup `getNoun` (an `Option NounSchema`). -/

/-- A row of the `entities` table. -/
structure EntityRow where
  id : String
  typ : String
  edata : Obj
  version : Nat
  createdAt : String
  updatedAt : String
  deletedAt : Option String
deriving DecidableEq, Repr

/-- A row of the `events` table / the `FullEvent` shape. -/
structure EventRow where
  id : String
  typ : String
  entityType : String
  entityId : String
  verb : String
  conjAction : String
  conjActivity : String
  conjEvent : String
  data : Option Obj
  before : Option Obj
  after : Option Obj
  sequence : Nat
  timestamp : String
deriving DecidableEq, Repr

/-- The mutable tenant store (entities and events tables). -/
structure Store where
  entities : List EntityRow
  events : List EventRow
deriving DecidableEq, Repr

/-- A parsed noun schema as cached by the DO (`StoredNounSchema` fields the
entity handlers consult: the verb map and the disabled-verb list). -/
structure NounSchema where
  name : String
  verbs : List (String × VerbConj)
  disabledVerbs : List String
deriving DecidableEq, Repr

/-- Lookup `SELECT ... FROM entities WHERE id = ? AND type = ? AND deleted_at IS NULL`. -/
def findEntity (entities : List EntityRow) (typ id : String) : Option EntityRow :=
  entities.find? (fun e => e.id == id && e.typ == typ && e.deletedAt.isNone)

/-- Models `UPDATE entities SET ... WHERE id = ?`. -/
def updateRowById (entities : List EntityRow) (id : String) (f : EntityRow → EntityRow) :
    List EntityRow :=
  entities.map (fun e => if e.id == id then f e else e)

/-- Models `SELECT MAX(sequence) FROM events WHERE entity_type = ? AND entity_id = ?`,
with SQL NULL coalesced to 0 (`?? 0` in the source). -/
def maxSeqFor (events : List EventRow) (t i : String) : Nat :=
  (events.filter (fun e => e.entityType == t && e.entityId == i)).foldl
    (fun m e => max m e.sequence) 0

/-- Embeds `logEvent`: compute the next per-entity sequence as MAX+1, build the
full event with the conjugation triple from `conjugateVerb`, and append it to
the `events` table.  (Subscription and integration dispatch are fire-and-forget
and modelled separately.) -/
def logEvent (events : List EventRow) (eid : String) (entityType entityId verb : String)
    (data before after : Option Obj) (now : String) : EventRow × List EventRow :=
  let conj := conjugateVerb verb
  let seq := maxSeqFor events entityType entityId + 1
  let ev : EventRow :=
    { id := eid, typ := entityType ++ "." ++ verb, entityType := entityType,
      entityId := entityId, verb := verb, conjAction := conj.action,
      conjActivity := conj.activity, conjEvent := conj.event,
      data := data, before := before, after := after,
      sequence := seq, timestamp := now }
  (ev, events ++ [ev])

/-! ## Number coercions used by the update handler -/

/-- JavaScript `Number(v)` on a JSON value; `none` models NaN.  (Numeric strings
are approximated by integer parsing; any non-numeric string is NaN, and either
way a NaN expected version can never equal the current version.) -/
def jsToNumber : Value → Option Int
  | .vInt n => some n
  | .vBool b => some (if b then 1 else 0)
  | .vNull => some 0
  | .vStr s => s.toInt?

/-- Digits-prefix value for `parseInt`. -/
def digitsVal (cs : List Char) : Option Nat :=
  let ds := cs.takeWhile (fun c => c.isDigit)
  if ds.isEmpty then none
  else some (ds.foldl (fun a c => a * 10 + (c.toNat - 48)) 0)

/-- JavaScript `parseInt(s.replace(/"/g, ""), 10)`; `none` models NaN. -/
def jsParseInt (s : String) : Option Int :=
  let cs := s.data.filter (fun c => c != '\"')
  match cs with
  | '-' :: rest => (digitsVal rest).map (fun n => -(n : Int))
  | _ => (digitsVal cs).map (fun n => (n : Int))

/-! ## Entity document construction -/

/-- Set a key to a possibly-undefined value: an undefined property disappears
when the document is serialised with `JSON.stringify`. -/
def objSetOpt (o : Obj) (k : String) : Option Value → Obj
  | some v => objSet o k v
  | none => objRemove o k

/-- The reserved meta-fields destructured away from an update patch
(`const { $version, $id, $type, $context, $createdAt, ...userUpdates }`). -/
def reservedUpdateKeys : List String := ["$version", "$id", "$type", "$context", "$createdAt"]

def stripReserved (o : Obj) : Obj :=
  o.filter (fun p => !(reservedUpdateKeys.contains p.1))

/-- The meta-field overrides applied after spreading the patch:
`$id`, `$type`, `$context` (kept from the existing document), `$version`,
`$createdAt` (kept), `$updatedAt`. -/
def applyMetaOverrides (base : Obj) (id typ : String) (ctx createdAt : Option Value)
    (version : Nat) (now : String) : Obj :=
  let o := objSet base "$id" (.vStr id)
  let o := objSet o "$type" (.vStr typ)
  let o := objSetOpt o "$context" ctx
  let o := objSet o "$version" (.vInt version)
  let o := objSetOpt o "$createdAt" createdAt
  objSet o "$updatedAt" (.vStr now)

/-! ## Entity handlers -/

/-- Result of `handleCreateEntity` with its HTTP status. -/
inductive CreateRes where
  | schemaMissing
  | disabled
  | idConflict
  | ok (entity : Obj) (ev : EventRow)
deriving DecidableEq, Repr

def CreateRes.status : CreateRes → Nat
  | .schemaMissing => 400
  | .disabled => 403
  | .idConflict => 500
  | .ok _ _ => 201

/-- Embeds `handleCreateEntity`: requires a registered noun, rejects a
disabled `create` verb, builds the document with `$version = 1`, inserts the
row and logs one `create` event.  `newId` is the id taken from the body or
minted by `generateEntityId`; a primary-key collision aborts the insert and
is surfaced as HTTP 500 by the outer catch (`idConflict`). -/
def handleCreateEntity (noun : Option NounSchema) (st : Store) (typ : String)
    (body : Obj) (newId contextUrl now eid : String) : CreateRes × Store :=
  match noun with
  | none => (.schemaMissing, st)
  | some n =>
    if n.disabledVerbs.contains "create" then (.disabled, st)
    else if st.entities.any (fun e => e.id == newId) then (.idConflict, st)
    else
      let entity := applyMetaOverrides body newId typ (some (.vStr contextUrl))
        (some (.vStr now)) 1 now
      let row : EntityRow :=
        { id := newId, typ := typ, edata := entity, version := 1,
          createdAt := now, updatedAt := now, deletedAt := none }
      let (ev, events) := logEvent st.events eid typ newId "create"
        (some entity) none (some entity) now
      (.ok entity ev, { entities := st.entities ++ [row], events := events })

/-- Result of `handleUpdateEntity` with its HTTP status. -/
inductive UpdateRes where
  | disabled
  | notFound
  | conflict (currentVersion : Nat) (expectedVersion : Option Int)
  | ok (entity : Obj) (newVersion : Nat) (ev : EventRow)
deriving DecidableEq, Repr

def UpdateRes.status : UpdateRes → Nat
  | .disabled => 403
  | .notFound => 404
  | .conflict _ _ => 409
  | .ok _ _ _ => 200

/-- The expected version resolved by `handleUpdateEntity`: body `$version`
when present (converted with `Number`, NaN possible), otherwise a numeric
`If-Match` header (a NaN parse leaves it unsupplied).  The outer `Option` is
"supplied"; the inner `Option Int` is `none` for NaN. -/
def resolveExpectedVersion (updates : Obj) (ifMatch : Option String) :
    Option (Option Int) :=
  match objGet updates "$version" with
  | some v => some (jsToNumber v)
  | none =>
    match ifMatch with
    | some h =>
      match jsParseInt h with
      | some p => some (some p)
      | none => none
    | none => none

/-- Embeds `handleUpdateEntity`: optional noun lookup used only for the
disabled check, entity fetch (soft-deleted rows invisible), optimistic
concurrency against `$version`/`If-Match`, reserved-field stripping, merge,
version bump, row update and one `update` event with before/after snapshots. -/
def handleUpdateEntity (noun : Option NounSchema) (st : Store) (typ id : String)
    (updates : Obj) (ifMatch : Option String) (now eid : String) : UpdateRes × Store :=
  if (noun.map (fun n => n.disabledVerbs.contains "update")).getD false then
    (.disabled, st)
  else
    match findEntity st.entities typ id with
    | none => (.notFound, st)
    | some row =>
      let existing := row.edata
      let currentVersion := row.version
      match resolveExpectedVersion updates ifMatch with
      | some ev =>
        if ev != some (Int.ofNat currentVersion) then
          (.conflict currentVersion ev, st)
        else
          let nextVersion := currentVersion + 1
          let updated := applyMetaOverrides (objMerge existing (stripReserved updates))
            id typ (objGet existing "$context") (objGet existing "$createdAt")
            nextVersion now
          let entities := updateRowById st.entities id (fun e =>
            { e with edata := updated, version := nextVersion, updatedAt := now })
          let (evt, events) := logEvent st.events eid typ id "update"
            (some updated) (some existing) (some updated) now
          (.ok updated nextVersion evt, { entities := entities, events := events })
      | none =>
        let nextVersion := currentVersion + 1
        let updated := applyMetaOverrides (objMerge existing (stripReserved updates))
          id typ (objGet existing "$context") (objGet existing "$createdAt")
          nextVersion now
        let entities := updateRowById st.entities id (fun e =>
          { e with edata := updated, version := nextVersion, updatedAt := now })
        let (evt, events) := logEvent st.events eid typ id "update"
          (some updated) (some existing) (some updated) now
        (.ok updated nextVersion evt, { entities := entities, events := events })

/-- Result of `handleDeleteEntity` with its HTTP status. -/
inductive DeleteRes where
  | disabled
  | notFound
  | ok (version : Nat) (ev : EventRow)
deriving DecidableEq, Repr

def DeleteRes.status : DeleteRes → Nat
  | .disabled => 403
  | .notFound => 404
  | .ok _ _ => 200

/-- Embeds `handleDeleteEntity`: optional noun lookup for the disabled check,
then `UPDATE entities SET deleted_at = ?, updated_at = ? WHERE id = ?`
(the `version` column is not touched) and one `delete` event whose `before`
is the prior state and whose `after` is null. -/
def handleDeleteEntity (noun : Option NounSchema) (st : Store) (typ id : String)
    (now eid : String) : DeleteRes × Store :=
  if (noun.map (fun n => n.disabledVerbs.contains "delete")).getD false then
    (.disabled, st)
  else
    match findEntity st.entities typ id with
    | none => (.notFound, st)
    | some row =>
      let existing := row.edata
      let entities := updateRowById st.entities id (fun e =>
        { e with deletedAt := some now, updatedAt := now })
      let (evt, events) := logEvent st.events eid typ id "delete"
        none (some existing) none now
      (.ok row.version evt, { entities := entities, events := events })

/-! ## Verb execution -/

/-- The request body of a verb execution as seen by `handleExecuteVerb`:
absent, present but not valid JSON, or a parsed JSON object. -/
inductive BodyState where
  | empty
  | invalidJson
  | json (o : Obj)
deriving DecidableEq, Repr

/-- The `verbData` the handler ends up with: the parsed object when the body
is valid JSON, and `{}` otherwise — the catch block swallows parse errors
("No body or invalid JSON — proceed with empty data"). -/
def parsedVerbData : BodyState → Obj
  | .json o => o
  | _ => []

/-- Result of `handleExecuteVerb` with its HTTP status. -/
inductive ExecRes where
  | schemaMissing
  | verbUnknown
  | useActionForm (action : String)
  | disabled
  | notFound
  | ok (entity : Obj) (newVersion : Nat) (ev : EventRow)
deriving DecidableEq, Repr

def ExecRes.status : ExecRes → Nat
  | .schemaMissing => 400
  | .verbUnknown => 400
  | .useActionForm _ => 400
  | .disabled => 403
  | .notFound => 404
  | .ok _ _ _ => 200

/-- Embeds `handleExecuteVerb`: noun required; the verb must resolve in its
action form (activity/event forms are redirected); disabled verbs rejected;
the body is parsed leniently into `verbData`; the entity is merged, its
version bumped, and one event `{EntityType}.{verb}` logged with before/after
snapshots. -/
def handleExecuteVerb (noun : Option NounSchema) (st : Store) (typ id verb : String)
    (body : BodyState) (now eid : String) : ExecRes × Store :=
  match noun with
  | none => (.schemaMissing, st)
  | some n =>
    match (n.verbs.find? (fun p => p.1 == verb)).map (fun p => p.2) with
    | none =>
      match n.verbs.find? (fun p => p.2.activity == verb || p.2.event == verb) with
      | none => (.verbUnknown, st)
      | some entry => (.useActionForm entry.2.action, st)
    | some _ =>
      if n.disabledVerbs.contains verb then (.disabled, st)
      else
        match findEntity st.entities typ id with
        | none => (.notFound, st)
        | some row =>
          let existing := row.edata
          let verbData := parsedVerbData body
          let nextVersion := row.version + 1
          let updated := applyMetaOverrides (objMerge existing verbData)
            id typ (objGet existing "$context") (objGet existing "$createdAt")
            nextVersion now
          let entities := updateRowById st.entities id (fun e =>
            { e with edata := updated, version := nextVersion, updatedAt := now })
          let (evt, events) := logEvent st.events eid typ id verb
            (some updated) (some existing) (some updated) now
          (.ok updated nextVersion evt, { entities := entities, events := events })

/-! ## Listing entities -/

/-- Single-field equality used by the in-memory filter of `handleListEntities`
(`e[key] !== value` fails for an absent key, so a null filter value does not
match an absent field in this code path). -/
def matchesFilter (o : Obj) (f : Obj) : Bool :=
  f.all (fun kv => objGet o kv.1 == some kv.2)

/-- SQLite TEXT comparison: strict lexicographic order on the character
sequences (the kernel-friendly formulation of the string order). -/
def strLt (a b : String) : Prop := List.Lex (· < ·) a.data b.data

instance : DecidableRel strLt := fun a b =>
  inferInstanceAs (Decidable (List.Lex (· < ·) a.data b.data))

def strLe (a b : String) : Prop := strLt a b ∨ a = b

instance : DecidableRel strLe := fun a b =>
  inferInstanceAs (Decidable (strLt a b ∨ a = b))

/-- Models `ORDER BY created_at DESC` (ties broken deterministically by the sort). -/
def createdDesc (a b : EntityRow) : Prop := strLe b.createdAt a.createdAt

instance : DecidableRel createdDesc := fun a b =>
  inferInstanceAs (Decidable (strLe b.createdAt a.createdAt))

/-- Response of `handleListEntities`. -/
structure ListOut where
  data : List Obj
  total : Nat
  limit : Nat
  offset : Nat
  hasMore : Bool
deriving DecidableEq, Repr

/-- Embeds `handleListEntities` (sort parameter omitted, i.e. absent): the SQL
page is `WHERE type = ? AND deleted_at IS NULL ORDER BY created_at DESC LIMIT
? OFFSET ?`; the filter is then applied in JavaScript to the page; `total` is
the unfiltered count and `hasMore := offset + |returned| < total`. -/
def handleListEntities (st : Store) (typ : String) (limit offset : Nat)
    (filter : Option Obj) : ListOut :=
  let limit := if limit ≤ 1000 then limit else 1000
  let live := st.entities.filter (fun e => e.typ == typ && e.deletedAt.isNone)
  let page := ((live.insertionSort createdDesc).drop offset).take limit
  let entities := page.map (fun e => e.edata)
  let entities :=
    match filter with
    | some f => entities.filter (fun o => matchesFilter o f)
    | none => entities
  let total := live.length
  { data := entities, total := total, limit := limit, offset := offset,
    hasMore := offset + entities.length < total }

/-! ## Time travel: event replay -/

/-- Embeds one iteration of the `replayEvents` loop: an event whose stored
event-form is `deleted` marks an existing state deleted and moves `$version`
to the event sequence; otherwise the `after` snapshot is merged (seeding
`$id`/`$type`/`$version` when no state exists yet) or, with no snapshot,
only `$version` advances. -/
def replayStep (state : Option Obj) (e : EventRow) : Option Obj :=
  if e.conjEvent == "deleted" then
    match state with
    | some s => some (objMerge s [("$deleted", .vBool true), ("$version", .vInt e.sequence)])
    | none => none
  else
    match e.after with
    | some a =>
      match state with
      | none => some (objMerge
          [("$id", .vStr e.entityId), ("$type", .vStr e.entityType),
           ("$version", .vInt e.sequence)] a)
      | some s => some (objMerge (objMerge s a)
          [("$id", .vStr e.entityId), ("$type", .vStr e.entityType),
           ("$version", .vInt e.sequence)])
    | none =>
      match state with
      | none => some
          [("$id", .vStr e.entityId), ("$type", .vStr e.entityType),
           ("$version", .vInt e.sequence)]
      | some s => some (objSet s "$version" (.vInt e.sequence))

/-- Embeds `replayEvents`: null for an empty list, else a left fold of
`replayStep` from null state. -/
def replayEvents (events : List EventRow) : Option Obj :=
  if events.isEmpty then none else events.foldl replayStep none

/-- Models `ORDER BY sequence ASC`. -/
def seqAsc (a b : EventRow) : Prop := a.sequence ≤ b.sequence

instance : DecidableRel seqAsc := fun a b =>
  inferInstanceAs (Decidable (a.sequence ≤ b.sequence))

/-- Result of `handleTimeTravelGet`. -/
inductive TimeTravelRes where
  | notFound
  | ok (state : Obj)
deriving DecidableEq, Repr

/-- The SQL row selection of `handleTimeTravelGet`: events of the entity,
optionally constrained by `sequence <= atVersion` and `timestamp <= asOf`,
ordered by sequence. -/
def timeTravelSelect (events : List EventRow) (typ id : String)
    (atVersion : Option Nat) (asOf : Option String) : List EventRow :=
  (events.filter (fun e =>
    e.entityType == typ && e.entityId == id &&
    (match atVersion with | some v => e.sequence ≤ v | none => true) &&
    (match asOf with | some t => strLe e.timestamp t | none => true))).insertionSort seqAsc

/-- Embeds `handleTimeTravelGet`: 404 when no event matches the constraint,
else replay; a null replay result is also surfaced as 404. -/
def handleTimeTravelGet (st : Store) (typ id : String) (atVersion : Option Nat)
    (asOf : Option String) : TimeTravelRes :=
  let rows := timeTravelSelect st.events typ id atVersion asOf
  if rows.isEmpty then .notFound
  else
    match replayEvents rows with
    | none => .notFound
    | some s => .ok s

/-! ## Subscription pattern matching -/

/-- JavaScript `str.split(sep)` for a one-character separator, over the
character list. -/
def splitOnChar (sep : Char) : List Char → List (List Char)
  | [] => [[]]
  | c :: rest =>
    let r := splitOnChar sep rest
    if c == sep then [] :: r
    else
      match r with
      | [] => [[c]]
      | h :: t => (c :: h) :: t

/-- Models `pattern.split(".")` as a list of strings. -/
def jsSplitDot (s : String) : List String :=
  (splitOnChar '.' s.data).map (fun cs => String.mk cs)


/-- Embeds `matchesPattern` from src/do/objects-do.ts.  Destructuring
`const [a, b] = s.split(".")` yields `undefined` for a missing second
segment, modelled with `Option String`; `===` on such values is `Option`
equality. -/
def matchesPattern (pattern eventType : String) : Bool :=
  if pattern == "*" then true
  else
    let ps := jsSplitDot pattern
    let es := jsSplitDot eventType
    let patternEntity := ps.get? 0
    let patternVerb := ps.get? 1
    let eventEntity := es.get? 0
    let eventVerb := es.get? 1
    if patternEntity == some "*" then patternVerb == eventVerb
    else if patternVerb == some "*" then patternEntity == eventEntity
    else pattern == eventType


/-! ## CDC stream (buffered query of `handleEventStream`) -/

/-- Models `ORDER BY timestamp ASC, id ASC`. -/
def tsIdAsc (a b : EventRow) : Prop :=
  strLt a.timestamp b.timestamp ∨ (a.timestamp = b.timestamp ∧ strLe a.id b.id)

instance : DecidableRel tsIdAsc := fun a b =>
  inferInstanceAs (Decidable (strLt a.timestamp b.timestamp ∨
    (a.timestamp = b.timestamp ∧ strLe a.id b.id)))

/-- Cursor resolution: `SELECT timestamp FROM events WHERE id = ?`. -/
def findEventById (events : List EventRow) (id : String) : Option EventRow :=
  events.find? (fun e => e.id == id)

/-- The strictly-after condition pushed into the buffered query when a cursor
row was resolved: `timestamp > ? OR (timestamp = ? AND id > ?)`. -/
def afterCursor (cursorTs cursorId : String) (e : EventRow) : Bool :=
  strLt cursorTs e.timestamp || (e.timestamp == cursorTs && strLt cursorId e.id)

/-- Embeds the buffered part of `handleEventStream` (no type/verb filters):
resolve the `since` cursor; if it names a stored event, keep only rows
strictly after it; order by timestamp then id. -/
def handleEventStreamBuffered (events : List EventRow) (sinceId : Option String) :
    List EventRow :=
  let filtered :=
    match sinceId with
    | some cid =>
      match findEventById events cid with
      | some cursor => events.filter (afterCursor cursor.timestamp cid)
      | none => events
    | none => events
  filtered.insertionSort tsIdAsc

/-! ## Integration dispatch -/

/-- A tenant-configured integration hook row. -/
structure IntegrationHook where
  id : String
  entityType : String
  verb : String
  service : String
  method : String
  active : Bool
deriving DecidableEq, Repr

/-- A matched hook as produced by `findMatchingHooks`. -/
structure MatchedHook where
  id : String
  service : String
  method : String
  builtin : Bool
deriving DecidableEq, Repr

/-- A `dispatch_log` row / `DispatchResult`. -/
structure DispatchResult where
  hookId : String
  service : String
  method : String
  status : String
  error : Option String
deriving DecidableEq, Repr

/-- The fixed built-in hook table of src/lib/integration-dispatch.ts. -/
def BUILTIN_HOOKS : List (String × String × String × String) :=
  [("Contact", "qualify", "PAYMENTS", "POST /customers/sync"),
   ("Contact", "create", "PAYMENTS", "POST /customers/sync"),
   ("Deal", "close", "PAYMENTS", "POST /subscriptions/create"),
   ("Issue", "create", "REPO", "POST /issues/create"),
   ("Issue", "update", "REPO", "POST /issues/update"),
   ("Issue", "close", "REPO", "POST /issues/close")]

/-- Embeds `hookMatches`: wildcard or exact on both coordinates. -/
def hookMatches (hookType hookVerb entityType verb : String) : Bool :=
  (hookType == "*" || hookType == entityType) && (hookVerb == "*" || hookVerb == verb)

/-- Embeds `findMatchingHooks`: matching built-ins (with synthetic
`builtin:{service}:{method}` ids) followed by matching active tenant hooks. -/
def findMatchingHooks (entityType verb : String) (tenantHooks : List IntegrationHook) :
    List MatchedHook :=
  ((BUILTIN_HOOKS.filter (fun h => hookMatches h.1 h.2.1 entityType verb)).map
    (fun h => { id := "builtin:" ++ h.2.2.1 ++ ":" ++ h.2.2.2,
                service := h.2.2.1, method := h.2.2.2, builtin := true }))
  ++ ((tenantHooks.filter (fun h => h.active && hookMatches h.entityType h.verb entityType verb)).map
    (fun h => { id := h.id, service := h.service, method := h.method, builtin := false }))

/-- An apostrophe, written by code point so the message string matches the
source literal (Service binding, name in single quotes, not available). -/
def apos : String := String.singleton (Char.ofNat 39)

/-- The error recorded when a matched hook names a service with no binding. -/
def bindingUnavailable (h : MatchedHook) : DispatchResult :=
  { hookId := h.id, service := h.service, method := h.method, status := "error",
    error := some ("Service binding " ++ apos ++ h.service ++ apos ++ " not available") }

/-- Embeds `dispatchIntegrationHooks`: for every matched hook, either the
missing-binding error result or the outcome of the network dispatch (the
latter abstracted by the oracle `call`, since it depends on the downstream
service). -/
def dispatchIntegrationHooks (avail : List String) (call : MatchedHook → DispatchResult)
    (entityType verb : String) (tenantHooks : List IntegrationHook) : List DispatchResult :=
  (findMatchingHooks entityType verb tenantHooks).map (fun h =>
    if avail.contains h.service then call h else bindingUnavailable h)

/-- Embeds `dispatchIntegrations` + `logDispatchResults` as the list of
`dispatch_log` rows written for one event: nothing at all when no service
binding exists ("If no services are bound, skip dispatch entirely"), else
the results of `dispatchIntegrationHooks`. -/
def dispatchIntegrations (avail : List String) (call : MatchedHook → DispatchResult)
    (entityType verb : String) (tenantHooks : List IntegrationHook) : List DispatchResult :=
  if avail.isEmpty then []
  else dispatchIntegrationHooks avail call entityType verb tenantHooks

/-! ## Mutation traces

A mutation is one HTTP-level write on the entity tables.  `applyMut` runs the
corresponding handler; the trace records, per mutation, the emitted event and
the version of the resulting entity row (for delete, the untouched version
column), or `none` when the handler failed and wrote nothing. -/

inductive Mut where
  | mcreate (typ : String) (body : Obj) (newId contextUrl now eid : String)
  | mupdate (typ id : String) (patch : Obj) (ifMatch : Option String) (now eid : String)
  | mverb (typ id verb : String) (body : BodyState) (now eid : String)
  | mdelete (typ id now eid : String)
deriving DecidableEq, Repr

/-- Noun cache lookup (`getNoun`). -/
def getNoun (nouns : List NounSchema) (name : String) : Option NounSchema :=
  nouns.find? (fun n => n.name == name)

def applyMut (nouns : List NounSchema) (st : Store) : Mut → Store × Option (EventRow × Nat)
  | .mcreate typ body newId ctx now eid =>
    match handleCreateEntity (getNoun nouns typ) st typ body newId ctx now eid with
    | (.ok _ ev, st2) => (st2, some (ev, 1))
    | (_, st2) => (st2, none)
  | .mupdate typ id patch ifMatch now eid =>
    match handleUpdateEntity (getNoun nouns typ) st typ id patch ifMatch now eid with
    | (.ok _ v ev, st2) => (st2, some (ev, v))
    | (_, st2) => (st2, none)
  | .mverb typ id verb body now eid =>
    match handleExecuteVerb (getNoun nouns typ) st typ id verb body now eid with
    | (.ok _ v ev, st2) => (st2, some (ev, v))
    | (_, st2) => (st2, none)
  | .mdelete typ id now eid =>
    match handleDeleteEntity (getNoun nouns typ) st typ id now eid with
    | (.ok v ev, st2) => (st2, some (ev, v))
    | (_, st2) => (st2, none)

def runMuts (nouns : List NounSchema) (st : Store) : List Mut → Store × List (Mut × Option (EventRow × Nat))
  | [] => (st, [])
  | m :: rest =>
    let s := applyMut nouns st m
    let r := runMuts nouns s.1 rest
    (r.1, (m, s.2) :: r.2)

/-- The events of one entity, in table (commit) order. -/
def eventsIn (events : List EventRow) (t i : String) : List EventRow :=
  events.filter (fun e => e.entityType == t && e.entityId == i)

def eventsFor (st : Store) (t i : String) : List EventRow :=
  eventsIn st.events t i

/-- Per-mutation linkage between the emitted event and the resulting entity
row: for create/update/verb execution the sequence equals the new version;
for delete the version column is untouched, so the sequence exceeds it by
one.  A failed mutation records nothing. -/
def stepOkB : Mut → Option (EventRow × Nat) → Bool
  | _, none => true
  | .mdelete _ _ _ _, some p => p.1.sequence == p.2 + 1
  | _, some p => p.1.sequence == p.2

/-- Store well-formedness maintained by every mutation: entity ids are
unique; per-entity sequences are exactly `1..n` in commit order; every event
belongs to a present entity row; and the version of a live row equals its event
count while a soft-deleted row is one event behind (the delete event). -/
structure StoreInv (st : Store) : Prop where
  nodup : (st.entities.map (fun r => r.id)).Nodup
  contig : ∀ t i, (eventsIn st.events t i).map (fun e => e.sequence) =
    List.range' 1 (eventsIn st.events t i).length
  evRow : ∀ e ∈ st.events, ∃ r, r ∈ st.entities ∧ r.id = e.entityId ∧ r.typ = e.entityType
  link : ∀ r ∈ st.entities,
    (r.deletedAt = none → r.version = (eventsIn st.events r.typ r.id).length) ∧
    (r.deletedAt ≠ none → r.version + 1 = (eventsIn st.events r.typ r.id).length)

/-! ## Specification-side reconstruction (for the replay claim)

`reconstructSpec` restates §4.7 of the specification in its own words, to be
compared with the embedded handler: fold the entity events with sequence at
most `v` in ascending order from a null state; a `deleted` event-form marks
an existing state deleted and advances its version to the event sequence;
any other event merges its `after` snapshot (seeding `$id`/`$type` when the
state is still null) and sets `$version` to the event sequence. -/

def reconstructSpecStep (state : Option Obj) (e : EventRow) : Option Obj :=
  if e.conjEvent == "deleted" then
    state.map (fun s =>
      objMerge s [("$deleted", .vBool true), ("$version", .vInt e.sequence)])
  else
    match state, e.after with
    | none, some a => some (objMerge
        [("$id", .vStr e.entityId), ("$type", .vStr e.entityType),
         ("$version", .vInt e.sequence)] a)
    | some s, some a => some (objMerge (objMerge s a)
        [("$id", .vStr e.entityId), ("$type", .vStr e.entityType),
         ("$version", .vInt e.sequence)])
    | none, none => some
        [("$id", .vStr e.entityId), ("$type", .vStr e.entityType),
         ("$version", .vInt e.sequence)]
    | some s, none => some (objSet s "$version" (.vInt e.sequence))

def reconstructSpec (events : List EventRow) (typ id : String) (v : Nat) : Option Obj :=
  ((events.filter (fun e => e.entityType == typ && e.entityId == id &&
      e.sequence ≤ v)).insertionSort seqAsc).foldl reconstructSpecStep none

/-- Projection used to state the update success case. -/
def UpdateRes.newVersion : UpdateRes → Option Nat
  | .ok _ v _ => some v
  | _ => none

/-! ## Concrete sample data for witnesses and counterexamples -/

/-- Entity-row maker for sample stores (created and updated coincide, live row). -/
def mkRow (id typ : String) (edata : Obj) (version : Nat) (createdAt : String) : EntityRow :=
  { id := id, typ := typ, edata := edata, version := version,
    createdAt := createdAt, updatedAt := createdAt, deletedAt := none }

/-- A Contact noun with the default verbs plus a custom `qualify` verb. -/
def contactNoun : NounSchema :=
  { name := "Contact",
    verbs := [("create", conjugateVerb "create"), ("update", conjugateVerb "update"),
              ("delete", conjugateVerb "delete"), ("qualify", conjugateVerb "qualify")],
    disabledVerbs := [] }

/-- Store for the list-entities check: one Customer created after one Lead. -/
def c1Store : Store :=
  { entities :=
      [mkRow "contact_a" "Contact" [("stage", .vStr "Customer")] 1 "2025-01-02",
       mkRow "contact_b" "Contact" [("stage", .vStr "Lead")] 1 "2025-01-01"],
    events := [] }

def c1Filter : Obj := [("stage", .vStr "Lead")]

/-- Create, update, custom verb, then delete of one contact (the mutation run
used to exercise sequence/version linkage). -/
def c2Muts : List Mut :=
  [.mcreate "Contact" [("name", .vStr "Alice")] "contact_1" "ctx" "t1" "e1",
   .mupdate "Contact" "contact_1" [("stage", .vStr "Lead")] none "t2" "e2",
   .mverb "Contact" "contact_1" "qualify" (.json [("stage", .vStr "Qualified")]) "t3" "e3",
   .mdelete "Contact" "contact_1" "t4" "e4"]

def c2Run : Store × List (Mut × Option (EventRow × Nat)) :=
  runMuts [contactNoun] { entities := [], events := [] } c2Muts

/-- Store with one live contact at version 1 (used by the update and verb
execution checks). -/
def c3Store : Store :=
  { entities := [mkRow "contact_1" "Contact" [("$id", .vStr "contact_1"), ("$type", .vStr "Contact"), ("$version", .vInt 1), ("name", .vStr "Alice")] 1 "2025-01-01"],
    events := [] }

/-- A dispatch oracle standing in for reachable service bindings. -/
def okCall (h : MatchedHook) : DispatchResult :=
  { hookId := h.id, service := h.service, method := h.method,
    status := "success", error := none }

/-- Event-row maker for CDC samples (only id/timestamp and keys matter). -/
def mkEv (id ts : String) (t i : String) (seq : Nat) : EventRow :=
  { id := id, typ := t ++ ".create", entityType := t, entityId := i,
    verb := "create", conjAction := "create", conjActivity := "creating",
    conjEvent := "created", data := none, before := none, after := none,
    sequence := seq, timestamp := ts }

def c8Events : List EventRow :=
  [mkEv "evt_b" "2025-01-01T10" "Contact" "c1" 1,
   mkEv "evt_a" "2025-01-01T11" "Contact" "c2" 1,
   mkEv "evt_c" "2025-01-01T10" "Contact" "c3" 1,
   mkEv "evt_d" "2025-01-01T09" "Contact" "c4" 1]

/-! # Claim theorems -/

/-- Claim C1 (code_bug): `handleListEntities` is required to push the
equality filter into the storage query before pagination, with `meta.total`
the filtered count and `hasMore` relative to it.  The embedded handler
instead pages first (`LIMIT`/`OFFSET` on the unfiltered rows), filters the
page in JavaScript, and counts without the filter.  On a store holding one
Customer (newer) and one Lead (older), listing with filter `stage = Lead`
and limit 1 returns no entities at all, `total = 2` and `hasMore = true`,
although exactly one live entity matches the filter — the behaviour the
repository test suite (src/test/list-entities.test.ts) explicitly rejects. -/
theorem C1_filter_pushdown_bug :
    handleListEntities c1Store "Contact" 1 0 (some c1Filter) =
      { data := [], total := 2, limit := 1, offset := 0, hasMore := true } ∧
    (c1Store.entities.filter (fun e => e.typ == "Contact" && e.deletedAt.isNone &&
        matchesFilter e.edata c1Filter)).length = 1 := by
  decide

/-- Claim C6 counterexample: the claim predicts that the pattern `*.*`
matches every two-segment event type, but the matcher returns false on
`Contact.create` (the entity-wildcard branch compares the literal `*`
against the event verb). -/
theorem C6_counterexample :
    matchesPattern "*.*" "Contact.create" = false := by decide

/-- Claim C6 (corrected): `*` matches everything; for two-segment patterns
an entity-side wildcard reduces the decision to verb equality (so `*.*`
matches only events whose verb segment is literally `*`), a verb-side
wildcard (with non-wildcard entity) reduces to entity equality, and with no
wildcard the pattern must equal the event type exactly. -/
theorem C6_pattern_matching (p t pe pv ee ev : String)
    (hp : jsSplitDot p = [pe, pv]) (ht : jsSplitDot t = [ee, ev]) :
    matchesPattern "*" t = true ∧
    matchesPattern p t =
      (if pe = "*" then pv == ev else if pv = "*" then pe == ee else p == t) := by
  constructor
  · rfl
  · have hpstar : p ≠ "*" := by
      intro h
      subst h
      rw [show jsSplitDot "*" = ["*"] from by decide] at hp
      simp at hp
    unfold matchesPattern
    rw [if_neg (by simpa using hpstar), hp, ht]
    simp only [List.get?]
    by_cases h1 : pe = "*"
    · simp [h1]
    · rw [if_neg h1]
      simp only [Option.some.injEq] at *
      by_cases h2 : pv = "*"
      · simp [h2, h1]
      · simp [h1, h2]

/-- Claim C6 witness: the corrected matcher decision at concrete inputs. -/
theorem C6_witness :
    matchesPattern "*" "Deal.close" = true ∧
    matchesPattern "Contact.qualify" "Contact.qualify" =
      (if "Contact" = "*" then "qualify" == "qualify"
       else if "qualify" = "*" then "Contact" == "Contact"
       else "Contact.qualify" == "Contact.qualify") :=
  C6_pattern_matching "Contact.qualify" "Contact.qualify" "Contact" "qualify"
    "Contact" "qualify" (by decide) (by decide)

/-- Claim C7 (code_bug): events are specified to carry the §4.2 conjugation
(consonant-y versus vowel-y, CVC doubling) — the algorithm `deriveVerb`
implements — but `logEvent` fills the stored triple from the simplified
`conjugateVerb`, which turns `play` into `plaied` (instead of `played`) and
`stop` into `stoped` (instead of `stopped`). -/
theorem C7_event_conjugation_bug :
    (conjugateVerb "play").event = "plaied" ∧ (deriveVerb "play").event = "played" ∧
    (conjugateVerb "stop").event = "stoped" ∧ (deriveVerb "stop").event = "stopped" ∧
    (logEvent [] "e1" "Contact" "c1" "play" none none none "t1").1.conjEvent = "plaied" := by
  decide

/-- Claim C4 counterexample: a `Deal.close` event matches the built-in
PAYMENTS hook, yet with no service bindings at all the dispatcher returns
before writing anything — no error entry reaches the dispatch log, contrary
to the claim (and to spec scenario 7). -/
theorem C4_counterexample :
    dispatchIntegrations [] okCall "Deal" "close" [] = [] ∧
    findMatchingHooks "Deal" "close" [] ≠ [] := by decide

/-- Claim C4 (corrected): provided at least one service binding exists, every
matched hook whose named binding is missing yields a dispatch-log entry with
status `error` and the exact message `Service binding <name> not available`
(single quotes around the name); when no binding exists at all, dispatch is
skipped entirely and nothing is logged. -/
theorem C4_missing_binding_logged (avail : List String)
    (call : MatchedHook → DispatchResult) (et vb : String)
    (hooks : List IntegrationHook) (h : MatchedHook)
    (hne : avail ≠ []) (hmem : h ∈ findMatchingHooks et vb hooks)
    (hmiss : avail.contains h.service = false) :
    bindingUnavailable h ∈ dispatchIntegrations avail call et vb hooks ∧
    (bindingUnavailable h).status = "error" ∧
    (bindingUnavailable h).error =
      some ("Service binding " ++ apos ++ h.service ++ apos ++ " not available") := by
  refine ⟨?_, rfl, rfl⟩
  unfold dispatchIntegrations
  rw [if_neg (by simpa [List.isEmpty_iff] using hne)]
  unfold dispatchIntegrationHooks
  have : (if avail.contains h.service then call h else bindingUnavailable h) =
      bindingUnavailable h := by rw [hmiss]; simp
  exact this ▸ List.mem_map_of_mem _ hmem

/-- Claim C4 witness: with only a REPO binding available, the built-in
`Deal.close` PAYMENTS hook is logged as a missing-binding error. -/
theorem C4_witness :
    bindingUnavailable ⟨"builtin:PAYMENTS:POST /subscriptions/create", "PAYMENTS",
        "POST /subscriptions/create", true⟩ ∈
      dispatchIntegrations ["REPO"] okCall "Deal" "close" [] ∧
    (bindingUnavailable ⟨"builtin:PAYMENTS:POST /subscriptions/create", "PAYMENTS",
        "POST /subscriptions/create", true⟩).status = "error" ∧
    (bindingUnavailable ⟨"builtin:PAYMENTS:POST /subscriptions/create", "PAYMENTS",
        "POST /subscriptions/create", true⟩).error =
      some ("Service binding " ++ apos ++ "PAYMENTS" ++ apos ++ " not available") :=
  C4_missing_binding_logged ["REPO"] okCall "Deal" "close" []
    ⟨"builtin:PAYMENTS:POST /subscriptions/create", "PAYMENTS",
     "POST /subscriptions/create", true⟩ (by decide) (by decide) (by decide)

/-- Claim C9 counterexample: a verb execution whose body is present but not
valid JSON is claimed to fail with HTTP 400 and leave no trace; the embedded
handler instead succeeds (HTTP 200), bumps the version to 2 and appends one
event. -/
theorem C9_counterexample :
    ((handleExecuteVerb (some contactNoun) c3Store "Contact" "contact_1" "qualify"
        .invalidJson "t2" "e2").1.status = 200) ∧
    ((handleExecuteVerb (some contactNoun) c3Store "Contact" "contact_1" "qualify"
        .invalidJson "t2" "e2").2.events.length = 1) ∧
    ((handleExecuteVerb (some contactNoun) c3Store "Contact" "contact_1" "qualify"
        .invalidJson "t2" "e2").2.entities.map (fun e => e.version) = [2]) := by
  decide

/-- Claim C9 (corrected): an unparseable body is swallowed by the catch block
and treated exactly like an absent body — the verb still executes with empty
payload (mutating the entity and appending its event); no BadInput/400 is
produced for bad JSON on this path. -/
theorem C9_invalid_json_ignored (noun : Option NounSchema) (st : Store)
    (typ id verb now eid : String) :
    parsedVerbData .invalidJson = parsedVerbData .empty ∧
    handleExecuteVerb noun st typ id verb .invalidJson now eid =
      handleExecuteVerb noun st typ id verb .empty now eid := by
  exact ⟨rfl, rfl⟩

/-- Claim C10 (confirmed): update and delete look the noun up only for the
disabled-verb check, so they succeed (HTTP 200) on an existing live entity
even when no noun of that type is registered; only create demands a schema
and fails with SchemaMissing when the noun is absent. -/
theorem C10_schema_optional_for_update_delete
    (st : Store) (typ id : String) (patch : Obj) (now eid now2 eid2 : String)
    (body : Obj) (newId ctx now3 eid3 : String) (row : EntityRow)
    (hrow : findEntity st.entities typ id = some row)
    (hexp : resolveExpectedVersion patch none = none) :
    (handleUpdateEntity none st typ id patch none now eid).1.status = 200 ∧
    (handleDeleteEntity none st typ id now2 eid2).1.status = 200 ∧
    (handleCreateEntity none st typ body newId ctx now3 eid3).1 = .schemaMissing := by
  refine ⟨?_, ?_, rfl⟩
  · simp only [handleUpdateEntity, Option.map_none, Option.getD_none, if_false, hrow, hexp,
      Bool.false_eq_true]
    rfl
  · simp only [handleDeleteEntity, Option.map_none, Option.getD_none, if_false, hrow,
      Bool.false_eq_true]
    rfl

/-- Claim C10 witness: on a one-contact store with no registered noun, update
and delete return 200 and create returns SchemaMissing. -/
theorem C10_witness :
    (handleUpdateEntity none c3Store "Contact" "contact_1" [("stage", .vStr "Lead")]
        none "t2" "e2").1.status = 200 ∧
    (handleDeleteEntity none c3Store "Contact" "contact_1" "t3" "e3").1.status = 200 ∧
    (handleCreateEntity none c3Store "Contact" [] "contact_9" "ctx" "t4" "e4").1 =
      .schemaMissing :=
  C10_schema_optional_for_update_delete c3Store "Contact" "contact_1"
    [("stage", .vStr "Lead")] "t2" "e2" "t3" "e3" [] "contact_9" "ctx" "t4" "e4"
    (mkRow "contact_1" "Contact" [("$id", .vStr "contact_1"), ("$type", .vStr "Contact"), ("$version", .vInt 1), ("name", .vStr "Alice")] 1 "2025-01-01")
    (by decide) (by decide)

/-- Claim C3 (confirmed): on an existing live entity with update enabled, a
supplied expected version (body `$version` or `If-Match`) that differs from
the current version makes the update fail as a version conflict (HTTP 409)
reporting both versions and leaving the store byte-identical (no version
bump, no event); a matching expected version yields the new version
current + 1 with exactly one appended event. -/
theorem C3_optimistic_concurrency
    (noun : Option NounSchema) (st : Store) (typ id : String) (updates : Obj)
    (ifMatch : Option String) (now eid : String) (row : EntityRow) (exp : Option Int)
    (hdis : (noun.map (fun n => n.disabledVerbs.contains "update")).getD false = false)
    (hrow : findEntity st.entities typ id = some row)
    (hexp : resolveExpectedVersion updates ifMatch = some exp) :
    (exp ≠ some (Int.ofNat row.version) →
      handleUpdateEntity noun st typ id updates ifMatch now eid =
        (.conflict row.version exp, st) ∧
      (UpdateRes.conflict row.version exp).status = 409) ∧
    (exp = some (Int.ofNat row.version) →
      (handleUpdateEntity noun st typ id updates ifMatch now eid).1.newVersion =
          some (row.version + 1) ∧
      (handleUpdateEntity noun st typ id updates ifMatch now eid).2.events.length =
          st.events.length + 1) := by
  constructor
  · intro hne
    have hb : (exp != some (Int.ofNat row.version)) = true := by
      simpa using hne
    constructor
    · simp only [handleUpdateEntity, hdis, Bool.false_eq_true, if_false, hrow, hexp, hb,
        if_true]
    · rfl
  · intro heq
    have hb : (exp != some (Int.ofNat row.version)) = false := by
      simp [heq]
    simp only [handleUpdateEntity, hdis, Bool.false_eq_true, if_false, hrow, hexp, hb,
      logEvent]
    constructor
    · rfl
    · simp [UpdateRes.newVersion]

/-- Claim C3 witness: with the current version 1, expected version 5 yields
the 409 conflict reporting both versions and an untouched store, while
expected version 1 succeeds with new version 2 and one event. -/
theorem C3_witness :
    (handleUpdateEntity none c3Store "Contact" "contact_1"
        [("$version", .vInt 5), ("stage", .vStr "Lead")] none "t2" "e2" =
      (.conflict 1 (some 5), c3Store) ∧ (UpdateRes.conflict 1 (some 5)).status = 409) ∧
    ((handleUpdateEntity none c3Store "Contact" "contact_1"
        [("$version", .vInt 1), ("stage", .vStr "Lead")] none "t2" "e2").1.newVersion =
      some 2 ∧
     (handleUpdateEntity none c3Store "Contact" "contact_1"
        [("$version", .vInt 1), ("stage", .vStr "Lead")] none "t2" "e2").2.events.length =
      c3Store.events.length + 1) :=
  ⟨(C3_optimistic_concurrency none c3Store "Contact" "contact_1"
      [("$version", .vInt 5), ("stage", .vStr "Lead")] none "t2" "e2"
      (mkRow "contact_1" "Contact" [("$id", .vStr "contact_1"), ("$type", .vStr "Contact"), ("$version", .vInt 1), ("name", .vStr "Alice")] 1 "2025-01-01")
      (some 5) (by decide) (by decide) (by decide)).1 (by decide),
   (C3_optimistic_concurrency none c3Store "Contact" "contact_1"
      [("$version", .vInt 1), ("stage", .vStr "Lead")] none "t2" "e2"
      (mkRow "contact_1" "Contact" [("$id", .vStr "contact_1"), ("$type", .vStr "Contact"), ("$version", .vInt 1), ("name", .vStr "Alice")] 1 "2025-01-01")
      (some 1) (by decide) (by decide) (by decide)).2 (by decide)⟩

/-! ## Order facts for the SQL sort relations -/

theorem String.data_injective (a b : String) (h : a.data = b.data) : a = b := by
  cases a; cases b; exact congrArg String.mk h

theorem strLt_trans (a b c : String) (h1 : strLt a b) (h2 : strLt b c) : strLt a c :=
  IsTrans.trans a.data b.data c.data h1 h2

theorem strLt_irrefl (a : String) (h : strLt a a) : False := irrefl a.data h

theorem strLt_trichotomy (a b : String) : strLt a b ∨ a = b ∨ strLt b a := by
  have ht : List.Lex (· < ·) a.data b.data ∨ a.data = b.data ∨
      List.Lex (· < ·) b.data a.data := trichotomous a.data b.data
  rcases ht with h | h | h
  · exact Or.inl h
  · exact Or.inr (Or.inl (String.data_injective a b h))
  · exact Or.inr (Or.inr h)

theorem strLe_trans (a b c : String) (h1 : strLe a b) (h2 : strLe b c) : strLe a c := by
  rcases h1 with h1 | h1
  · rcases h2 with h2 | h2
    · exact Or.inl (strLt_trans a b c h1 h2)
    · exact Or.inl (h2 ▸ h1)
  · exact h1 ▸ h2

theorem strLe_total (a b : String) : strLe a b ∨ strLe b a := by
  rcases strLt_trichotomy a b with h | h | h
  · exact Or.inl (Or.inl h)
  · exact Or.inl (Or.inr h)
  · exact Or.inr (Or.inl h)

instance : IsTrans EventRow tsIdAsc where
  trans a b c h1 h2 := by
    rcases h1 with h1 | ⟨e1, l1⟩
    · rcases h2 with h2 | ⟨e2, l2⟩
      · exact Or.inl (strLt_trans _ _ _ h1 h2)
      · exact Or.inl (e2 ▸ h1)
    · rcases h2 with h2 | ⟨e2, l2⟩
      · exact Or.inl (e1 ▸ h2)
      · exact Or.inr ⟨e1.trans e2, strLe_trans _ _ _ l1 l2⟩

instance : IsTotal EventRow tsIdAsc where
  total a b := by
    rcases strLt_trichotomy a.timestamp b.timestamp with h | h | h
    · exact Or.inl (Or.inl h)
    · rcases strLe_total a.id b.id with h2 | h2
      · exact Or.inl (Or.inr ⟨h, h2⟩)
      · exact Or.inr (Or.inr ⟨h.symm, h2⟩)
    · exact Or.inr (Or.inl h)

/-- Claim C8 (confirmed): with a `since` cursor naming a stored event, the
buffered CDC output contains exactly the events strictly after the cursor
(later timestamp, or equal timestamp with greater id), is ordered by
timestamp then id, is a permutation of that filtered set, and excludes the
cursor event itself. -/
theorem C8_cdc_cursor (events : List EventRow) (cid : String) (cursor e : EventRow)
    (hc : findEventById events cid = some cursor) :
    (e ∈ handleEventStreamBuffered events (some cid) ↔ e ∈ events ∧
      (strLt cursor.timestamp e.timestamp ∨
        (e.timestamp = cursor.timestamp ∧ strLt cid e.id))) ∧
    List.Sorted tsIdAsc (handleEventStreamBuffered events (some cid)) ∧
    (handleEventStreamBuffered events (some cid)).Perm
      (events.filter (afterCursor cursor.timestamp cid)) ∧
    cursor ∉ handleEventStreamBuffered events (some cid) := by
  have hout : handleEventStreamBuffered events (some cid) =
      (events.filter (afterCursor cursor.timestamp cid)).insertionSort tsIdAsc := by
    simp only [handleEventStreamBuffered, hc]
  have hcid : cursor.id = cid := by
    have := List.find?_some hc
    simpa [findEventById] using this
  have hmem : ∀ x : EventRow, x ∈ handleEventStreamBuffered events (some cid) ↔
      x ∈ events ∧ (strLt cursor.timestamp x.timestamp ∨
        (x.timestamp = cursor.timestamp ∧ strLt cid x.id)) := by
    intro x
    rw [hout, (List.perm_insertionSort tsIdAsc _).mem_iff, List.mem_filter]
    simp [afterCursor]
  refine ⟨hmem e, ?_, ?_, ?_⟩
  · rw [hout]
    exact List.sorted_insertionSort tsIdAsc _
  · rw [hout]
    exact List.perm_insertionSort tsIdAsc _
  · intro hin
    rcases (hmem cursor).1 hin with ⟨-, h | ⟨-, h⟩⟩
    · exact strLt_irrefl _ h
    · rw [hcid] at h
      exact strLt_irrefl _ h

/-- Claim C8 witness: the buffered output for cursor `evt_b` on a concrete
four-event log, checked for the later event `evt_a`. -/
theorem C8_witness :
    (mkEv "evt_a" "2025-01-01T11" "Contact" "c2" 1 ∈
        handleEventStreamBuffered c8Events (some "evt_b") ↔
      mkEv "evt_a" "2025-01-01T11" "Contact" "c2" 1 ∈ c8Events ∧
      (strLt "2025-01-01T10" "2025-01-01T11" ∨
        ("2025-01-01T11" = "2025-01-01T10" ∧ strLt "evt_b" "evt_a"))) ∧
    List.Sorted tsIdAsc (handleEventStreamBuffered c8Events (some "evt_b")) ∧
    (handleEventStreamBuffered c8Events (some "evt_b")).Perm
      (c8Events.filter (afterCursor "2025-01-01T10" "evt_b")) ∧
    mkEv "evt_b" "2025-01-01T10" "Contact" "c1" 1 ∉
      handleEventStreamBuffered c8Events (some "evt_b") :=
  C8_cdc_cursor c8Events "evt_b" (mkEv "evt_b" "2025-01-01T10" "Contact" "c1" 1)
    (mkEv "evt_a" "2025-01-01T11" "Contact" "c2" 1) (by decide)

/-! ## Replay refinement -/

theorem reconstructSpecStep_eq_replayStep : reconstructSpecStep = replayStep := by
  funext s e
  unfold reconstructSpecStep replayStep
  cases s <;> cases e.after <;> by_cases h : (e.conjEvent == "deleted") = true <;>
    simp [h]

theorem timeTravelSelect_atVersion (events : List EventRow) (typ id : String) (v : Nat) :
    timeTravelSelect events typ id (some v) none =
      (events.filter (fun e => e.entityType == typ && e.entityId == id &&
        decide (e.sequence ≤ v))).insertionSort seqAsc := by
  unfold timeTravelSelect
  congr 1
  apply List.filter_congr
  intro e _
  simp

/-- Claim C5 (confirmed): reconstruction at version `v` agrees exactly with
the specification fold — the events of the entity with sequence at most `v`,
taken in ascending sequence order, folded from a null state with the deleted
mark / snapshot-merge step — and the handler returns NotFound whenever no
event matches the constraint. -/
theorem C5_replay (st : Store) (typ id : String) (v : Nat) (s : Obj) :
    (handleTimeTravelGet st typ id (some v) none = .ok s ↔
      reconstructSpec st.events typ id v = some s) ∧
    (timeTravelSelect st.events typ id (some v) none = [] →
      handleTimeTravelGet st typ id (some v) none = .notFound) := by
  have hsel : reconstructSpec st.events typ id v =
      (timeTravelSelect st.events typ id (some v) none).foldl replayStep none := by
    rw [timeTravelSelect_atVersion]
    unfold reconstructSpec
    rw [reconstructSpecStep_eq_replayStep]
  constructor
  · unfold handleTimeTravelGet
    rw [hsel]
    by_cases he : (timeTravelSelect st.events typ id (some v) none).isEmpty
    · rw [if_pos he]
      rw [List.isEmpty_iff.mp he]
      simp
    · rw [if_neg he]
      have hrep : replayEvents (timeTravelSelect st.events typ id (some v) none) =
          (timeTravelSelect st.events typ id (some v) none).foldl replayStep none := by
        unfold replayEvents
        rw [if_neg he]
      rw [hrep]
      cases hfold : (timeTravelSelect st.events typ id (some v) none).foldl replayStep none
      · simp
      · simp
  · intro hempty
    unfold handleTimeTravelGet
    rw [hempty]
    rfl

/-- Claim C5 witness: the reconstruction equivalence and empty-selection
behaviour instantiated on the empty store. -/
theorem C5_witness :
    (handleTimeTravelGet { entities := [], events := [] } "Contact" "c1" (some 1) none =
        .ok [] ↔ reconstructSpec [] "Contact" "c1" 1 = some []) ∧
    (timeTravelSelect [] "Contact" "c1" (some 1) none = [] →
      handleTimeTravelGet { entities := [], events := [] } "Contact" "c1" (some 1) none =
        .notFound) :=
  C5_replay { entities := [], events := [] } "Contact" "c1" 1 []

/-! ## Sequence/version invariant machinery -/

theorem eventsIn_append (events : List EventRow) (ev : EventRow) (t i : String) :
    eventsIn (events ++ [ev]) t i =
      eventsIn events t i ++
        (if ev.entityType == t && ev.entityId == i then [ev] else []) := by
  unfold eventsIn
  rw [List.filter_append]
  congr 1
  simp [List.filter_cons]

theorem foldl_max_range (n : Nat) : (List.range' 1 n).foldl max 0 = n := by
  induction n with
  | zero => rfl
  | succ k ih =>
    rw [List.range'_concat, List.foldl_append]
    simp only [List.foldl_cons, List.foldl_nil, ih]
    omega

theorem maxSeqFor_eq_foldl (events : List EventRow) (t i : String) :
    maxSeqFor events t i =
      ((eventsIn events t i).map (fun e => e.sequence)).foldl max 0 := by
  unfold maxSeqFor eventsIn
  rw [List.foldl_map]

theorem maxSeqFor_of_contig (events : List EventRow) (t i : String)
    (h : (eventsIn events t i).map (fun e => e.sequence) =
      List.range' 1 (eventsIn events t i).length) :
    maxSeqFor events t i = (eventsIn events t i).length := by
  rw [maxSeqFor_eq_foldl, h, foldl_max_range]

theorem contig_append (events : List EventRow) (ev : EventRow)
    (h : ∀ t i, (eventsIn events t i).map (fun e => e.sequence) =
        List.range' 1 (eventsIn events t i).length)
    (hseq : ev.sequence = (eventsIn events ev.entityType ev.entityId).length + 1) :
    ∀ t i, (eventsIn (events ++ [ev]) t i).map (fun e => e.sequence) =
        List.range' 1 (eventsIn (events ++ [ev]) t i).length := by
  intro t i
  rw [eventsIn_append]
  by_cases hm : (ev.entityType == t && ev.entityId == i) = true
  · obtain ⟨h1, h2⟩ : ev.entityType = t ∧ ev.entityId = i := by simpa using hm
    subst h1
    subst h2
    rw [if_pos hm, List.map_append, List.length_append]
    simp only [List.map_cons, List.map_nil, List.length_cons, List.length_nil]
    rw [h ev.entityType ev.entityId, hseq, List.range'_concat]
    congr 2
    omega
  · rw [if_neg hm]
    simp [h t i]

theorem updateRowById_map_id (l : List EntityRow) (id : String) (f : EntityRow → EntityRow)
    (hf : ∀ e, (f e).id = e.id) :
    (updateRowById l id f).map (fun r => r.id) = l.map (fun r => r.id) := by
  unfold updateRowById
  rw [List.map_map]
  apply List.map_congr_left
  intro e _
  by_cases h : e.id = id <;> simp [h, hf]

theorem mem_updateRowById_iff (l : List EntityRow) (id : String) (f : EntityRow → EntityRow)
    (r2 : EntityRow) :
    r2 ∈ updateRowById l id f ↔ ∃ r, r ∈ l ∧ r2 = if r.id == id then f r else r := by
  unfold updateRowById
  simp only [List.mem_map]
  constructor
  · rintro ⟨r, hr, he⟩
    exact ⟨r, hr, he.symm⟩
  · rintro ⟨r, hr, he⟩
    exact ⟨r, hr, he.symm⟩

theorem nodup_id_unique (l : List EntityRow) (hn : (l.map (fun r => r.id)).Nodup)
    (a b : EntityRow) (ha : a ∈ l) (hb : b ∈ l) (hid : a.id = b.id) : a = b :=
  List.inj_on_of_nodup_map hn ha hb hid

theorem findEntity_spec (l : List EntityRow) (typ id : String) (r : EntityRow)
    (h : findEntity l typ id = some r) :
    r ∈ l ∧ r.id = id ∧ r.typ = typ ∧ r.deletedAt = none := by
  unfold findEntity at h
  have hm := List.mem_of_find?_eq_some h
  have hp := List.find?_some h
  simp only [Bool.and_eq_true, beq_iff_eq, Option.isNone_iff_eq_none] at hp
  exact ⟨hm, hp.1.1, hp.1.2, hp.2⟩

theorem logEvent_fst (events : List EventRow) (eid t i verb : String)
    (data before after : Option Obj) (now : String) :
    (logEvent events eid t i verb data before after now).1 =
      { id := eid, typ := t ++ "." ++ verb, entityType := t, entityId := i, verb := verb,
        conjAction := (conjugateVerb verb).action,
        conjActivity := (conjugateVerb verb).activity,
        conjEvent := (conjugateVerb verb).event, data := data, before := before,
        after := after, sequence := maxSeqFor events t i + 1, timestamp := now } := rfl

theorem logEvent_snd (events : List EventRow) (eid t i verb : String)
    (data before after : Option Obj) (now : String) :
    (logEvent events eid t i verb data before after now).2 =
      events ++ [(logEvent events eid t i verb data before after now).1] := rfl

theorem inv_create (st : Store) (hInv : StoreInv st) (typ newId : String) (entity : Obj)
    (now eid : String)
    (hnew : st.entities.any (fun e => e.id == newId) = false) :
    StoreInv ⟨st.entities ++ [⟨newId, typ, entity, 1, now, now, none⟩],
      (logEvent st.events eid typ newId "create"
        (some entity) none (some entity) now).2⟩ ∧
    (logEvent st.events eid typ newId "create"
      (some entity) none (some entity) now).1.sequence = 1 := by
  have hid : ∀ e ∈ st.entities, e.id ≠ newId := by
    intro e he heq
    have hany : st.entities.any (fun e => e.id == newId) = true :=
      List.any_eq_true.mpr ⟨e, he, by simp [heq]⟩
    rw [hnew] at hany
    exact Bool.false_ne_true hany
  have hev : ∀ t, eventsIn st.events t newId = [] := by
    intro t
    unfold eventsIn
    rw [List.filter_eq_nil_iff]
    intro e he
    obtain ⟨r, hr, hrid, -⟩ := hInv.evRow e he
    simp only [Bool.and_eq_true, beq_iff_eq, not_and]
    intro _ h2
    exact hid r hr (by rw [hrid, h2])
  have hmax : maxSeqFor st.events typ newId = 0 := by
    rw [maxSeqFor_eq_foldl, hev typ]
    rfl
  have hseq1 : (logEvent st.events eid typ newId "create"
      (some entity) none (some entity) now).1.sequence = 1 := by
    rw [logEvent_fst]
    simp [hmax]
  refine ⟨?_, hseq1⟩
  constructor
  · -- nodup
    simp only [List.map_append, List.map_cons, List.map_nil]
    rw [List.nodup_append]
    refine ⟨hInv.nodup, by simp, ?_⟩
    intro a ha hb
    simp only [List.mem_singleton] at hb
    obtain ⟨r, hr, hrid⟩ := List.mem_map.mp ha
    exact hid r hr (by rw [hrid, hb])
  · -- contig
    intro t i
    rw [logEvent_snd]
    refine contig_append st.events _ hInv.contig ?_ t i
    rw [logEvent_fst]
    simp only
    rw [hev typ]
    simp [hmax]
  · -- evRow
    intro e he
    rw [logEvent_snd] at he
    rcases List.mem_append.mp he with h | h
    · obtain ⟨r, hr, h1, h2⟩ := hInv.evRow e h
      exact ⟨r, List.mem_append_left _ hr, h1, h2⟩
    · rw [List.mem_singleton] at h
      subst h
      refine ⟨_, List.mem_append_right _ (List.mem_singleton.mpr rfl), ?_, ?_⟩
      · rw [logEvent_fst]
      · rw [logEvent_fst]
  · -- link
    intro r2 hr2
    rcases List.mem_append.mp hr2 with h | h
    · have hr2id : r2.id ≠ newId := hid r2 h
      have hb : (newId == r2.id) = false := by
        simp only [beq_eq_false_iff_ne]
        exact fun hh => hr2id hh.symm
      have hsame : eventsIn ((logEvent st.events eid typ newId "create"
          (some entity) none (some entity) now).2) r2.typ r2.id =
          eventsIn st.events r2.typ r2.id := by
        rw [logEvent_snd, eventsIn_append, logEvent_fst]
        simp only [hb, Bool.and_false]
        simp
      rw [hsame]
      exact hInv.link r2 h
    · rw [List.mem_singleton] at h
      subst h
      constructor
      · intro _
        rw [logEvent_snd, eventsIn_append, logEvent_fst]
        simp only
        rw [hev typ]
        simp
      · intro hcontra
        exact absurd rfl hcontra

theorem inv_mutate (st : Store) (hInv : StoreInv st) (typ id : String) (row : EntityRow)
    (hrow : findEntity st.entities typ id = some row)
    (f : EntityRow → EntityRow)
    (hfid : ∀ e, (f e).id = e.id) (hftyp : ∀ e, (f e).typ = e.typ)
    (hver : ((f row).deletedAt = none → (f row).version = row.version + 1) ∧
            ((f row).deletedAt ≠ none → (f row).version = row.version))
    (verb : String) (data before after : Option Obj) (now eid : String) :
    StoreInv ⟨updateRowById st.entities id f,
      (logEvent st.events eid typ id verb data before after now).2⟩ ∧
    (logEvent st.events eid typ id verb data before after now).1.sequence =
      row.version + 1 := by
  obtain ⟨hmem, hid, htyp, hdel⟩ := findEntity_spec st.entities typ id row hrow
  have hn : row.version = (eventsIn st.events typ id).length := by
    have hl := (hInv.link row hmem).1 hdel
    rw [htyp, hid] at hl
    exact hl
  have hmax : maxSeqFor st.events typ id = (eventsIn st.events typ id).length :=
    maxSeqFor_of_contig st.events typ id (hInv.contig typ id)
  have hseq : (logEvent st.events eid typ id verb data before after now).1.sequence =
      row.version + 1 := by
    rw [logEvent_fst, hn]
    show maxSeqFor st.events typ id + 1 = _
    rw [hmax]
  refine ⟨?_, hseq⟩
  have huniq : ∀ r ∈ st.entities, r.id = id → r = row := by
    intro r hr hrid
    exact nodup_id_unique st.entities hInv.nodup r row hr hmem (by rw [hrid, hid])
  constructor
  · -- nodup
    rw [updateRowById_map_id st.entities id f hfid]
    exact hInv.nodup
  · -- contig
    intro t i
    rw [logEvent_snd]
    refine contig_append st.events _ hInv.contig ?_ t i
    rw [logEvent_fst]
    show maxSeqFor st.events typ id + 1 = _
    rw [hmax]
  · -- evRow
    intro e he
    rw [logEvent_snd] at he
    rcases List.mem_append.mp he with h | h
    · obtain ⟨r, hr, h1, h2⟩ := hInv.evRow e h
      refine ⟨if r.id == id then f r else r,
        (mem_updateRowById_iff st.entities id f _).mpr ⟨r, hr, rfl⟩, ?_, ?_⟩
      · have hidval : (if r.id == id then f r else r).id = r.id := by
          by_cases hc : r.id = id <;> simp [hc, hfid]
        rw [hidval]
        exact h1
      · have htypval : (if r.id == id then f r else r).typ = r.typ := by
          by_cases hc : r.id = id <;> simp [hc, hftyp]
        rw [htypval]
        exact h2
    · rw [List.mem_singleton] at h
      subst h
      refine ⟨f row,
        (mem_updateRowById_iff st.entities id f _).mpr ⟨row, hmem, by simp [hid]⟩, ?_, ?_⟩
      · rw [logEvent_fst]
        show (f row).id = id
        rw [hfid, hid]
      · rw [logEvent_fst]
        show (f row).typ = typ
        rw [hftyp, htyp]
  · -- link
    intro r2 hr2
    obtain ⟨r, hr, hr2eq⟩ := (mem_updateRowById_iff st.entities id f r2).1 hr2
    by_cases hc : r.id = id
    · have hrrow : r = row := huniq r hr hc
      subst hrrow
      have hr2f : r2 = f r := by
        rw [hr2eq]
        simp [hc]
      subst hr2f
      have htypid : (f r).typ = typ := by rw [hftyp, htyp]
      have hidid : (f r).id = id := by rw [hfid, hid]
      have hlen : (eventsIn ((logEvent st.events eid typ id verb data before after
          now).2) typ id).length = (eventsIn st.events typ id).length + 1 := by
        rw [logEvent_snd, eventsIn_append, logEvent_fst]
        simp
      constructor
      · intro hnd
        rw [htypid, hidid, hlen, hver.1 hnd, hn]
      · intro hnd
        rw [htypid, hidid, hlen, hver.2 hnd, hn]
    · have hr2r : r2 = r := by
        rw [hr2eq]
        simp [hc]
      rw [hr2r]
      have hb : (id == r.id) = false := by
        simp only [beq_eq_false_iff_ne]
        exact fun hh => hc hh.symm
      have hsame : eventsIn ((logEvent st.events eid typ id verb data before after
          now).2) r.typ r.id = eventsIn st.events r.typ r.id := by
        rw [logEvent_snd, eventsIn_append, logEvent_fst]
        simp only [hb, Bool.and_false]
        simp
      rw [hsame]
      exact hInv.link r hr

theorem logEvent_len (events : List EventRow) (eid t i verb : String)
    (data before after : Option Obj) (now : String) :
    (logEvent events eid t i verb data before after now).2.length =
      events.length + 1 := by
  rw [logEvent_snd]
  simp

theorem applyMut_ok (nouns : List NounSchema) (st : Store) (m : Mut)
    (hInv : StoreInv st) :
    StoreInv (applyMut nouns st m).1 ∧
    stepOkB m (applyMut nouns st m).2 = true ∧
    (applyMut nouns st m).1.events.length =
      st.events.length + (if (applyMut nouns st m).2.isSome then 1 else 0) := by
  cases m with
  | mcreate typ body newId ctx now eid =>
    simp only [applyMut, handleCreateEntity]
    cases hn : getNoun nouns typ with
    | none => exact ⟨hInv, rfl, by simp⟩
    | some n =>
      by_cases hd : n.disabledVerbs.contains "create" = true
      · simp only [hd, if_true]
        exact ⟨hInv, rfl, by simp⟩
      · simp only [if_neg hd]
        by_cases ha : st.entities.any (fun e => e.id == newId) = true
        · simp only [ha, if_true]
          exact ⟨hInv, rfl, by simp⟩
        · simp only [if_neg ha]
          have hstep := inv_create st hInv typ newId
            (applyMetaOverrides body newId typ (some (.vStr ctx)) (some (.vStr now)) 1 now)
            now eid (by simpa using ha)
          exact ⟨hstep.1, beq_iff_eq.mpr hstep.2, logEvent_len _ _ _ _ _ _ _ _ _⟩
  | mupdate typ id patch ifMatch now eid =>
    simp only [applyMut, handleUpdateEntity]
    by_cases hd : ((getNoun nouns typ).map
        (fun n => n.disabledVerbs.contains "update")).getD false = true
    · simp only [hd, if_true]
      exact ⟨hInv, rfl, by simp⟩
    · simp only [if_neg hd]
      cases hrow : findEntity st.entities typ id with
      | none => exact ⟨hInv, rfl, by simp⟩
      | some row =>
        have hdelspec : row.deletedAt = none :=
          (findEntity_spec st.entities typ id row hrow).2.2.2
        have hstep := inv_mutate st hInv typ id row hrow
          (fun e => { e with
            edata := applyMetaOverrides (objMerge row.edata (stripReserved patch)) id typ
              (objGet row.edata "$context") (objGet row.edata "$createdAt")
              (row.version + 1) now,
            version := row.version + 1, updatedAt := now })
          (fun e => rfl) (fun e => rfl)
          ⟨fun _ => rfl, fun hne => absurd hdelspec hne⟩
          "update"
          (some (applyMetaOverrides (objMerge row.edata (stripReserved patch)) id typ
            (objGet row.edata "$context") (objGet row.edata "$createdAt")
            (row.version + 1) now))
          (some row.edata)
          (some (applyMetaOverrides (objMerge row.edata (stripReserved patch)) id typ
            (objGet row.edata "$context") (objGet row.edata "$createdAt")
            (row.version + 1) now))
          now eid
        cases hexp : resolveExpectedVersion patch ifMatch with
        | none =>
          exact ⟨hstep.1, beq_iff_eq.mpr hstep.2, logEvent_len _ _ _ _ _ _ _ _ _⟩
        | some ev =>
          by_cases hb : (ev != some (Int.ofNat row.version)) = true
          · simp only [hb, if_true]
            exact ⟨hInv, rfl, by simp⟩
          · simp only [if_neg hb]
            exact ⟨hstep.1, beq_iff_eq.mpr hstep.2, logEvent_len _ _ _ _ _ _ _ _ _⟩
  | mverb typ id verb body now eid =>
    simp only [applyMut, handleExecuteVerb]
    cases hn : getNoun nouns typ with
    | none => exact ⟨hInv, rfl, by simp⟩
    | some n =>
      dsimp only
      cases hv : (n.verbs.find? (fun p => p.1 == verb)).map (fun p => p.2) with
      | none =>
        dsimp only
        cases hv2 : n.verbs.find? (fun p => p.2.activity == verb || p.2.event == verb) with
        | none => exact ⟨hInv, rfl, by simp⟩
        | some entry => exact ⟨hInv, rfl, by simp⟩
      | some conj =>
        dsimp only
        by_cases hd : n.disabledVerbs.contains verb = true
        · simp only [hd, if_true]
          exact ⟨hInv, rfl, by simp⟩
        · simp only [if_neg hd]
          cases hrow : findEntity st.entities typ id with
          | none => exact ⟨hInv, rfl, by simp⟩
          | some row =>
            have hdelspec : row.deletedAt = none :=
              (findEntity_spec st.entities typ id row hrow).2.2.2
            have hstep := inv_mutate st hInv typ id row hrow
              (fun e => { e with
                edata := applyMetaOverrides (objMerge row.edata (parsedVerbData body)) id typ
                  (objGet row.edata "$context") (objGet row.edata "$createdAt")
                  (row.version + 1) now,
                version := row.version + 1, updatedAt := now })
              (fun e => rfl) (fun e => rfl)
              ⟨fun _ => rfl, fun hne => absurd hdelspec hne⟩
              verb
              (some (applyMetaOverrides (objMerge row.edata (parsedVerbData body)) id typ
                (objGet row.edata "$context") (objGet row.edata "$createdAt")
                (row.version + 1) now))
              (some row.edata)
              (some (applyMetaOverrides (objMerge row.edata (parsedVerbData body)) id typ
                (objGet row.edata "$context") (objGet row.edata "$createdAt")
                (row.version + 1) now))
              now eid
            exact ⟨hstep.1, beq_iff_eq.mpr hstep.2, logEvent_len _ _ _ _ _ _ _ _ _⟩
  | mdelete typ id now eid =>
    simp only [applyMut, handleDeleteEntity]
    by_cases hd : ((getNoun nouns typ).map
        (fun n => n.disabledVerbs.contains "delete")).getD false = true
    · simp only [hd, if_true]
      exact ⟨hInv, rfl, by simp⟩
    · simp only [if_neg hd]
      cases hrow : findEntity st.entities typ id with
      | none => exact ⟨hInv, rfl, by simp⟩
      | some row =>
        have hstep := inv_mutate st hInv typ id row hrow
          (fun e => { e with deletedAt := some now, updatedAt := now })
          (fun e => rfl) (fun e => rfl)
          ⟨fun h => Option.noConfusion h, fun _ => rfl⟩
          "delete" none (some row.edata) none now eid
        exact ⟨hstep.1, beq_iff_eq.mpr hstep.2, logEvent_len _ _ _ _ _ _ _ _ _⟩

theorem runMuts_ok (nouns : List NounSchema) :
    ∀ (muts : List Mut) (st : Store), StoreInv st →
    StoreInv (runMuts nouns st muts).1 ∧
    ((runMuts nouns st muts).2.all (fun p => stepOkB p.1 p.2) = true) ∧
    (runMuts nouns st muts).1.events.length =
      st.events.length + ((runMuts nouns st muts).2.filter (fun p => p.2.isSome)).length := by
  intro muts
  induction muts with
  | nil =>
    intro st h
    exact ⟨h, rfl, by simp [runMuts]⟩
  | cons m rest ih =>
    intro st h
    have hstep := applyMut_ok nouns st m h
    have hrest := ih (applyMut nouns st m).1 hstep.1
    refine ⟨?_, ?_, ?_⟩
    · simp only [runMuts]
      exact hrest.1
    · simp only [runMuts, List.all_cons]
      rw [hstep.2.1, hrest.2.1]
      rfl
    · simp only [runMuts, List.filter_cons]
      have e1 := hstep.2.2
      have e2 := hrest.2.2
      cases hsv : (applyMut nouns st m).2 with
      | none =>
        rw [hsv] at e1
        simp only [Option.isSome_none, if_false, Bool.false_eq_true] at e1
        simp only [Option.isSome_none]
        rw [e2, e1]
        simp
      | some p =>
        rw [hsv] at e1
        simp only [Option.isSome_some, if_true] at e1
        simp only [Option.isSome_some]
        rw [e2, e1]
        simp
        omega

/-- Claim C2 counterexample: on the run create, update, qualify, delete of
one contact, the first three mutations emit events with sequence equal to the
resulting version (1, 2, 3), but the delete leaves the version column at 3
while its event carries sequence 4 — so the emitted sequence does not equal
the version of the resulting entity row for the delete mutation. -/
theorem C2_counterexample :
    (c2Run.2.map (fun p => p.2.map (fun q => (q.1.sequence, q.2)))) =
      [some (1, 1), some (2, 2), some (3, 3), some (4, 3)] ∧
    (c2Run.1.entities.map (fun r => (r.version, r.deletedAt))) = [(3, some "t4")] := by
  decide

/-- Claim C2 (corrected): starting from an empty store, any run of mutations
satisfies: per-entity sequences are exactly the contiguous range `1..n` in
commit order; every successful mutation appends exactly one event (the event
count equals the successful-step count); and the sequence of each emitted event
equals the resulting entity version for create/update/custom-verb mutations,
while for delete the version column is left untouched and the sequence equals
that version plus one. -/
theorem C2_sequence_version (nouns : List NounSchema) (muts : List Mut) (t i : String) :
    ((eventsIn (runMuts nouns ⟨[], []⟩ muts).1.events t i).map (fun e => e.sequence) =
      List.range' 1 (eventsIn (runMuts nouns ⟨[], []⟩ muts).1.events t i).length) ∧
    ((runMuts nouns ⟨[], []⟩ muts).2.all (fun p => stepOkB p.1 p.2) = true) ∧
    ((runMuts nouns ⟨[], []⟩ muts).1.events.length =
      ((runMuts nouns ⟨[], []⟩ muts).2.filter (fun p => p.2.isSome)).length) := by
  have hinv0 : StoreInv ⟨[], []⟩ := by
    refine ⟨by simp, ?_, by simp, by simp⟩
    intro t i
    simp [eventsIn]
  have h := runMuts_ok nouns muts ⟨[], []⟩ hinv0
  exact ⟨h.1.contig t i, h.2.1, by simpa using h.2.2⟩
